import Mathlib

set_option maxRecDepth 4000

/-!
Shallow embedding of the Chip-8 interpreter sources (src/cpu.rs,
src/screen.rs, src/frame_buffer.rs, src/keypad.rs).

Machine integers are modelled as Nat, reduced modulo 2 ^ w exactly where the
source relies on wrapping (wrapping_add, wrapping_sub, shifts on u8/u64).
Checked failures of the Rust code (array index out of bounds, usize
subtraction below zero, an explicit fatal abort) are modelled with Except:
every such event is a fatal, observable termination of the interpreter.
Fixed-size arrays are modelled as total functions Nat → Nat together with
the index guards the Rust runtime enforces at each access site.
-/

deriving instance DecidableEq for Except

/-- Pointwise update of a function that models a fixed mutable array. -/
def update (f : Nat → Nat) (k v : Nat) : Nat → Nat :=
  fun j => if j = k then v else f j

/-- u8 wrapping subtraction (Rust wrapping_sub on u8). -/
def wsub8 (a b : Nat) : Nat := (((a : Int) - (b : Int)) % 256).toNat

/-- u64 rotate right; Rust rotate_right reduces the amount modulo 64. -/
def rotRight64 (b n : Nat) : Nat :=
  ((b >>> (n % 64)) ||| (b <<< (64 - n % 64))) % 2 ^ 64

/-! ## Display surface (src/screen.rs) -/

/-- The distinct fatal events of point-level pixel access: the explicit
abort inside check_bounds, the checked usize subtraction 63 - col going
below zero, and an out-of-range row index into the 32-entry row array. -/
inductive PixelPanic where
  | boundsViolation
  | arithUnderflow
  | rowIndexOutOfRange
deriving DecidableEq

structure Screen where
  pixel_buffer : Nat → Nat
  wrap_x : Bool
  wrap_y : Bool

def Screen.new (wx wy : Bool) : Screen := ⟨fun _ => 0, wx, wy⟩

/-- Set every bit (pixel) in the buffer to be 0. -/
def Screen.clear (s : Screen) : Screen := { s with pixel_buffer := fun _ => 0 }

/-- Cast a byte to a u64 and shift bits the given amount; wrap if the flag is
set (Screen::shift_byte; frame_buffer.rs contains the identical function). -/
def Screen.shift_byte (s : Screen) (byte : Nat) (shift : Int) : Nat :=
  if 0 ≤ shift then (byte <<< shift.toNat) % 2 ^ 64
  else if s.wrap_x then rotRight64 byte shift.natAbs
  else byte >>> (shift.natAbs % 64)

/-- The buffer effect of Screen::draw_byte: XOR the shifted word into the
target row, wrapping vertically when the flag is set. -/
def drawByteB (wy : Bool) (buf : Nat → Nat) (row byte : Nat) : Nat → Nat :=
  if row < 32 then update buf row (buf row ^^^ byte)
  else if wy then update buf (row % 32) (buf (row % 32) ^^^ byte)
  else buf

/-- The for-loop of Screen::draw_sprite over the already-shifted sprite
bytes, drawing byte i at row + i. -/
def drawLoopB (wy : Bool) (buf : Nat → Nat) : List Nat → Nat → (Nat → Nat)
  | [], _ => buf
  | w :: ws, row => drawLoopB wy (drawByteB wy buf row w) ws (row + 1)

/-- Draw a byte (Screen::draw_byte). -/
def Screen.draw_byte (s : Screen) (row byte : Nat) : Screen :=
  { s with pixel_buffer := drawByteB s.wrap_y s.pixel_buffer row byte }

/-- Draw sprite at the given position (Screen::draw_sprite): the shift
amount 63 - col - 7 is computed once in i32 arithmetic (exact for any
on-screen column), each sprite byte is shifted and XORed into row + i.
The return type is the new screen only: screen.rs discards any collision
information. -/
def Screen.draw_sprite (s : Screen) (sprite : List Nat) (row col : Nat) : Screen :=
  let shift : Int := 63 - (col : Int) - 7
  { s with pixel_buffer :=
      drawLoopB s.wrap_y s.pixel_buffer (sprite.map (fun b => s.shift_byte b shift)) row }

/-- Check if a given index is out of bounds (Screen::check_bounds):
the source aborts when row >= 32 or col > 64. -/
def Screen.check_bounds (row col : Nat) : Except PixelPanic Unit :=
  if 32 ≤ row ∨ 64 < col then .error .boundsViolation else .ok ()

/-- Set the value of a pixel (Screen::set_pixel).  The source performs no
check_bounds call; the usize subtraction 63 - col fails for col > 63 and the
row index into the 32-entry array fails for row >= 32. -/
def Screen.set_pixel (s : Screen) (row col : Nat) (status : Bool) : Except PixelPanic Screen :=
  if col ≤ 63 then
    if row < 32 then
      if status then
        .ok { s with pixel_buffer :=
                update s.pixel_buffer row (s.pixel_buffer row ||| (1 <<< (63 - col))) }
      else
        .ok { s with pixel_buffer :=
                update s.pixel_buffer row (s.pixel_buffer row &&& ((2 ^ 64 - 1) ^^^ (1 <<< (63 - col)))) }
    else .error .rowIndexOutOfRange
  else .error .arithUnderflow

/-- Get the status of a pixel (Screen::get_pixel): check_bounds first, then
the usize subtraction 63 - col, then the bit read. -/
def Screen.get_pixel (s : Screen) (row col : Nat) : Except PixelPanic Bool :=
  match Screen.check_bounds row col with
  | .error e => .error e
  | .ok _ =>
    if col ≤ 63 then .ok (((s.pixel_buffer row >>> (63 - col)) &&& 1) == 1)
    else .error .arithUnderflow

/-! ## Frame buffer (src/frame_buffer.rs) — identical drawing logic, but
draw_byte and draw_sprite additionally report the collision flag. -/

structure FrameBuffer where
  buffer : Nat → Nat
  prev_buffer : Nat → Nat
  wrap_x : Bool
  wrap_y : Bool

def FrameBuffer.new (wx wy : Bool) : FrameBuffer := ⟨fun _ => 0, fun _ => 0, wx, wy⟩

def FrameBuffer.shift_byte (s : FrameBuffer) (byte : Nat) (shift : Int) : Nat :=
  if 0 ≤ shift then (byte <<< shift.toNat) % 2 ^ 64
  else if s.wrap_x then rotRight64 byte shift.natAbs
  else byte >>> (shift.natAbs % 64)

/-- The buffer effect and reported flag of FrameBuffer::draw_byte: after
XORing, report whether byte AND new-row differs from byte. -/
def drawByteBC (wy : Bool) (buf : Nat → Nat) (row byte : Nat) : (Nat → Nat) × Bool :=
  if row < 32 then
    let nb := update buf row (buf row ^^^ byte)
    (nb, byte &&& nb row != byte)
  else if wy then
    let nb := update buf (row % 32) (buf (row % 32) ^^^ byte)
    (nb, byte &&& nb (row % 32) != byte)
  else (buf, false)

/-- The for-loop of FrameBuffer::draw_sprite, accumulating the change flag. -/
def drawLoopBC (wy : Bool) (buf : Nat → Nat) : List Nat → Nat → ((Nat → Nat) × Bool)
  | [], _ => (buf, false)
  | w :: ws, row =>
    let r1 := drawByteBC wy buf row w
    let r2 := drawLoopBC wy r1.1 ws (row + 1)
    (r2.1, r1.2 || r2.2)

/-- Draw sprite at the given position (FrameBuffer::draw_sprite), returning
the changed frame buffer and the collision flag. -/
def FrameBuffer.draw_sprite (s : FrameBuffer) (sprite : List Nat) (row col : Nat) :
    FrameBuffer × Bool :=
  let shift : Int := 63 - (col : Int) - 7
  let r := drawLoopBC s.wrap_y s.buffer (sprite.map (fun b => s.shift_byte b shift)) row
  ({ s with buffer := r.1 }, r.2)

/-! ## Keypad (src/keypad.rs) -/

structure Keypad where
  keys : Nat

def Keypad.new : Keypad := ⟨0⟩

def Keypad.set_pressed (kp : Keypad) (k : Nat) : Keypad := ⟨(1 <<< k) % 2 ^ 16⟩

def Keypad.is_pressed (kp : Keypad) (k : Nat) : Bool := ((kp.keys >>> k) &&& 1) == 1

/-! ## CPU (src/cpu.rs) -/

/-- The three things a Program Counter can do (enum ProgramCounter). -/
inductive ProgramCounter where
  | next
  | skip
  | jump (addr : Nat)

def ProgramCounter.skip_if (condition : Bool) : ProgramCounter :=
  if condition then .skip else .next

/-- Fatal events of the interpreter: the explicit abort on an undecodable
instruction word, the explicit abort of the font-lookup opcode, and checked
failures of stack/memory array accesses. -/
inductive EmuError where
  | invalidOpcode (instruction : Nat)
  | invalidCharacter (x : Nat)
  | stackBounds
  | memoryBounds
deriving DecidableEq

def OFFSET : Nat := 0x200

structure CPU where
  memory : Nat → Nat
  v : Nat → Nat
  stack : Nat → Nat
  sp : Nat
  i : Nat
  pc : Nat
  delay_timer : Nat
  sound_timer : Nat
  screen : Screen
  keypad : Keypad

/-- A CPU state with zeroed memory, registers and screen, wrap flags set,
used as the base state of concrete executions (mirrors the test states the
repository constructs by struct literal). -/
def CPU.zeroed : CPU :=
  { memory := fun _ => 0
    v := fun _ => 0
    stack := fun _ => 0
    sp := 0
    i := 0
    pc := OFFSET
    delay_timer := 0
    sound_timer := 0
    screen := Screen.new true true
    keypad := Keypad.new }

/-- Rust slice &memory[i..i+n]: fatal when the range leaves the 4096-byte
array. -/
def readSlice (mem : Nat → Nat) (start len : Nat) : Except EmuError (List Nat) :=
  if start + len ≤ 4096 then .ok ((List.range len).map (fun k => mem (start + k)))
  else .error .memoryBounds

/-- CLS: clear the screen. -/
def opcode_00e0 (c : CPU) : CPU × ProgramCounter :=
  ({ c with screen := c.screen.clear }, .next)

/-- RET: decrement the stack pointer (checked), then jump to the popped
address. -/
def opcode_00ee (c : CPU) : Except EmuError (CPU × ProgramCounter) :=
  if c.sp = 0 then .error .stackBounds
  else if c.sp - 1 < 16 then .ok ({ c with sp := c.sp - 1 }, .jump (c.stack (c.sp - 1)))
  else .error .stackBounds

/-- JP nnn: jump to the given address plus the program offset. -/
def opcode_1nnn (c : CPU) (nnn : Nat) : CPU × ProgramCounter :=
  (c, .jump (OFFSET + nnn))

/-- CALL nnn: store the current program counter at stack[sp] (checked),
increment sp, jump to OFFSET + nnn. -/
def opcode_2nnn (c : CPU) (nnn : Nat) : Except EmuError (CPU × ProgramCounter) :=
  if c.sp < 16 then
    .ok ({ c with stack := update c.stack c.sp c.pc, sp := c.sp + 1 }, .jump (OFFSET + nnn))
  else .error .stackBounds

/-- SE Vx kk. -/
def opcode_3xkk (c : CPU) (x kk : Nat) : CPU × ProgramCounter :=
  (c, .skip_if (c.v x == kk))

/-- SNE Vx kk. -/
def opcode_4xkk (c : CPU) (x kk : Nat) : CPU × ProgramCounter :=
  (c, .skip_if (c.v x != kk))

/-- SE Vx Vy. -/
def opcode_5xy0 (c : CPU) (x y : Nat) : CPU × ProgramCounter :=
  (c, .skip_if (c.v x == c.v y))

/-- LD Vx kk. -/
def opcode_6xkk (c : CPU) (x kk : Nat) : CPU × ProgramCounter :=
  ({ c with v := update c.v x kk }, .next)

/-- ADD Vx kk (wrapping). -/
def opcode_7xkk (c : CPU) (x kk : Nat) : CPU × ProgramCounter :=
  ({ c with v := update c.v x ((c.v x + kk) % 256) }, .next)

/-- LD Vx Vy. -/
def opcode_8xy0 (c : CPU) (x y : Nat) : CPU × ProgramCounter :=
  ({ c with v := update c.v x (c.v y) }, .next)

/-- OR Vx Vy. -/
def opcode_8xy1 (c : CPU) (x y : Nat) : CPU × ProgramCounter :=
  ({ c with v := update c.v x (c.v x ||| c.v y) }, .next)

/-- AND Vx Vy. -/
def opcode_8xy2 (c : CPU) (x y : Nat) : CPU × ProgramCounter :=
  ({ c with v := update c.v x (c.v x &&& c.v y) }, .next)

/-- XOR Vx Vy. -/
def opcode_8xy3 (c : CPU) (x y : Nat) : CPU × ProgramCounter :=
  ({ c with v := update c.v x (c.v x ^^^ c.v y) }, .next)

/-- ADD Vx Vy: widen to u16, set VF on overflow, keep the low byte. -/
def opcode_8xy4 (c : CPU) (x y : Nat) : CPU × ProgramCounter :=
  let res := c.v x + c.v y
  let c1 := { c with v := update c.v 15 (if res > 255 then 1 else 0) }
  ({ c1 with v := update c1.v x (res % 256) }, .next)

/-- SUB Vx Vy: VF is written first (1 when Vx is strictly greater than Vy),
then Vx receives the wrapping difference, reading the registers after the
flag write exactly as the source does. -/
def opcode_8xy5 (c : CPU) (x y : Nat) : CPU × ProgramCounter :=
  let c1 := { c with v := update c.v 15 (if c.v x > c.v y then 1 else 0) }
  ({ c1 with v := update c1.v x (wsub8 (c1.v x) (c1.v y)) }, .next)

/-- SHR Vx Vy. -/
def opcode_8xy6 (c : CPU) (x y : Nat) : CPU × ProgramCounter :=
  let c1 := { c with v := update c.v 15 (c.v y &&& 1) }
  ({ c1 with v := update c1.v x (c1.v y >>> 1) }, .next)

/-- SUBN Vx Vy: VF is written first (1 when Vy is strictly greater than Vx),
then Vx receives the wrapping difference Vy - Vx. -/
def opcode_8xy7 (c : CPU) (x y : Nat) : CPU × ProgramCounter :=
  let c1 := { c with v := update c.v 15 (if c.v y > c.v x then 1 else 0) }
  ({ c1 with v := update c1.v x (wsub8 (c1.v y) (c1.v x)) }, .next)

/-- SHL Vx Vy. -/
def opcode_8xye (c : CPU) (x y : Nat) : CPU × ProgramCounter :=
  let c1 := { c with v := update c.v 15 ((c.v y >>> 7) &&& 1) }
  ({ c1 with v := update c1.v x ((c1.v y <<< 1) % 256) }, .next)

/-- SNE Vx Vy. -/
def opcode_9xy0 (c : CPU) (x y : Nat) : CPU × ProgramCounter :=
  (c, .skip_if (c.v x != c.v y))

/-- LD I nnn. -/
def opcode_annn (c : CPU) (nnn : Nat) : CPU × ProgramCounter :=
  ({ c with i := nnn }, .next)

/-- JP V0 nnn (no base offset added). -/
def opcode_bnnn (c : CPU) (nnn : Nat) : CPU × ProgramCounter :=
  (c, .jump (c.v 0 + nnn))

/-- RND Vx kk: the random byte is supplied by the driver as an oracle. -/
def opcode_cxkk (c : CPU) (x kk rand : Nat) : CPU × ProgramCounter :=
  ({ c with v := update c.v x (rand % 256 &&& kk) }, .next)

/-- DRW Vx Vy n: reads the sprite slice at I (checked) and delegates to
Screen::draw_sprite, passing the register INDICES y and x as row and column
and discarding any collision information, exactly as the source line
self.screen.draw_sprite(sprite, y, x) does. -/
def opcode_dxyn (c : CPU) (x y n : Nat) : Except EmuError (CPU × ProgramCounter) :=
  (readSlice c.memory c.i n).map
    (fun sprite => ({ c with screen := c.screen.draw_sprite sprite y x }, .next))

/-- SKP Vx. -/
def opcode_ex9e (c : CPU) (x : Nat) : CPU × ProgramCounter :=
  (c, .skip_if (c.keypad.is_pressed (c.v x)))

/-- SKNP Vx. -/
def opcode_exa1 (c : CPU) (x : Nat) : CPU × ProgramCounter :=
  (c, .skip_if (! c.keypad.is_pressed (c.v x)))

/-- LD Vx DT. -/
def opcode_fx07 (c : CPU) (x : Nat) : CPU × ProgramCounter :=
  ({ c with v := update c.v x c.delay_timer }, .next)

/-- LD Vx K: scan keys 0 to 14 (the source loop is for k in 0..15); on the
first pressed key store it and advance, otherwise jump to the current pc. -/
def opcode_fx0a (c : CPU) (x : Nat) : CPU × ProgramCounter :=
  match (List.range 15).find? (fun k => c.keypad.is_pressed k) with
  | some k => ({ c with v := update c.v x k }, .next)
  | none => (c, .jump c.pc)

/-- LD DT Vx. -/
def opcode_fx15 (c : CPU) (x : Nat) : CPU × ProgramCounter :=
  ({ c with delay_timer := c.v x }, .next)

/-- LD ST Vx. -/
def opcode_fx18 (c : CPU) (x : Nat) : CPU × ProgramCounter :=
  ({ c with sound_timer := c.v x }, .next)

/-- ADD I Vx (usize wrapping add). -/
def opcode_fx1e (c : CPU) (x : Nat) : CPU × ProgramCounter :=
  ({ c with i := (c.i + c.v x) % 2 ^ 64 }, .next)

/-- LD F Vx: the source aborts only when Vx > 16, then sets I to Vx * 5. -/
def opcode_fx29 (c : CPU) (x : Nat) : Except EmuError (CPU × ProgramCounter) :=
  if c.v x > 16 then .error (.invalidCharacter x)
  else .ok ({ c with i := c.v x * 5 }, .next)

/-- LD B Vx: the source writes all three quotient/remainder expressions of
v[x >> 8] to the single cell memory[i]. -/
def opcode_fx33 (c : CPU) (x : Nat) : Except EmuError (CPU × ProgramCounter) :=
  if c.i < 4096 then
    let m1 := update c.memory c.i (c.v (x >>> 8) / 100)
    let m2 := update m1 c.i (c.v (x >>> 8) / 10 % 10)
    let m3 := update m2 c.i (c.v (x >>> 8) % 100 % 10)
    .ok ({ c with memory := m3 }, .next)
  else .error .memoryBounds

/-- The for-loop of opcode_fx55: memory[i + idx] = v[idx] for each idx,
failing at the first out-of-range memory index. -/
def fx55_loop (mem v : Nat → Nat) (base : Nat) : List Nat → Except EmuError (Nat → Nat)
  | [] => .ok mem
  | idx :: rest =>
    if base + idx < 4096 then fx55_loop (update mem (base + idx) (v idx)) v base rest
    else .error .memoryBounds

/-- LD <I> Vx: store registers 0 up to x in memory starting at I. -/
def opcode_fx55 (c : CPU) (x : Nat) : Except EmuError (CPU × ProgramCounter) :=
  (fx55_loop c.memory c.v c.i (List.range (x + 1))).map
    (fun m => ({ c with memory := m }, .next))

/-- The for-loop of opcode_fx65: v[idx] = memory[i + idx] for each idx. -/
def fx65_loop (v mem : Nat → Nat) (base : Nat) : List Nat → Except EmuError (Nat → Nat)
  | [] => .ok v
  | idx :: rest =>
    if base + idx < 4096 then fx65_loop (update v idx (mem (base + idx))) mem base rest
    else .error .memoryBounds

/-- LD Vx <I>: read memory I to I + x into registers 0 to x. -/
def opcode_fx65 (c : CPU) (x : Nat) : Except EmuError (CPU × ProgramCounter) :=
  (fx65_loop c.v c.memory c.i (List.range (x + 1))).map
    (fun nv => ({ c with v := nv }, .next))

/-- Fetch-decode-dispatch (CPU::execute_instruction): split the word into
nibbles, dispatch as the source match does, then apply the returned
program-counter effect at the single call site. -/
def executeInstruction (c : CPU) (instruction rand : Nat) : Except EmuError CPU :=
  let n1 := (instruction &&& 0xF000) >>> 12
  let n2 := (instruction &&& 0x0F00) >>> 8
  let n3 := (instruction &&& 0x00F0) >>> 4
  let n4 := instruction &&& 0x000F
  let kk := instruction &&& 0x00FF
  let nnn := instruction &&& 0x0FFF
  let pcr : Except EmuError (CPU × ProgramCounter) :=
    match n1, n2, n3, n4 with
    | 0x0, 0x0, 0xE, 0x0 => .ok (opcode_00e0 c)
    | 0x0, 0x0, 0xE, 0xE => opcode_00ee c
    | 0x1, _, _, _ => .ok (opcode_1nnn c nnn)
    | 0x2, _, _, _ => opcode_2nnn c nnn
    | 0x3, _, _, _ => .ok (opcode_3xkk c n2 kk)
    | 0x4, _, _, _ => .ok (opcode_4xkk c n2 kk)
    | 0x5, _, _, 0x0 => .ok (opcode_5xy0 c n2 n3)
    | 0x6, _, _, _ => .ok (opcode_6xkk c n2 kk)
    | 0x7, _, _, _ => .ok (opcode_7xkk c n2 kk)
    | 0x8, _, _, 0x0 => .ok (opcode_8xy0 c n2 n3)
    | 0x8, _, _, 0x1 => .ok (opcode_8xy1 c n2 n3)
    | 0x8, _, _, 0x2 => .ok (opcode_8xy2 c n2 n3)
    | 0x8, _, _, 0x3 => .ok (opcode_8xy3 c n2 n3)
    | 0x8, _, _, 0x4 => .ok (opcode_8xy4 c n2 n3)
    | 0x8, _, _, 0x5 => .ok (opcode_8xy5 c n2 n3)
    | 0x8, _, _, 0x6 => .ok (opcode_8xy6 c n2 n3)
    | 0x8, _, _, 0x7 => .ok (opcode_8xy7 c n2 n3)
    | 0x8, _, _, 0xE => .ok (opcode_8xye c n2 n3)
    | 0x9, _, _, 0x0 => .ok (opcode_9xy0 c n2 n3)
    | 0xA, _, _, _ => .ok (opcode_annn c nnn)
    | 0xB, _, _, _ => .ok (opcode_bnnn c nnn)
    | 0xC, _, _, _ => .ok (opcode_cxkk c n2 kk rand)
    | 0xD, _, _, _ => opcode_dxyn c n2 n3 n4
    | 0xE, _, 0x9, 0xE => .ok (opcode_ex9e c n2)
    | 0xE, _, 0xA, 0x1 => .ok (opcode_exa1 c n2)
    | 0xF, _, 0x0, 0x7 => .ok (opcode_fx07 c n2)
    | 0xF, _, 0x0, 0xA => .ok (opcode_fx0a c n2)
    | 0xF, _, 0x1, 0x5 => .ok (opcode_fx15 c n2)
    | 0xF, _, 0x1, 0x8 => .ok (opcode_fx18 c n2)
    | 0xF, _, 0x1, 0xE => .ok (opcode_fx1e c n2)
    | 0xF, _, 0x2, 0x9 => opcode_fx29 c n2
    | 0xF, _, 0x3, 0x3 => opcode_fx33 c n2
    | 0xF, _, 0x5, 0x5 => opcode_fx55 c n2
    | 0xF, _, 0x6, 0x5 => opcode_fx65 c n2
    | _, _, _, _ => .error (.invalidOpcode instruction)
  pcr.map (fun r =>
    match r.2 with
    | .next => { r.1 with pc := r.1.pc + 2 }
    | .skip => { r.1 with pc := r.1.pc + 4 }
    | .jump addr => { r.1 with pc := addr })

/-- Fetch the big-endian two-byte instruction word at pc (checked reads). -/
def getInstruction (c : CPU) : Except EmuError Nat :=
  if c.pc + 1 < 4096 then .ok ((c.memory c.pc <<< 8) ||| c.memory (c.pc + 1))
  else .error .memoryBounds

/-- CPU::cycle: fetch then execute one instruction. -/
def cycle (c : CPU) (rand : Nat) : Except EmuError CPU :=
  (getInstruction c).bind (fun instr => executeInstruction c instr rand)

/-! ## Lemmas about the sprite-drawing loops -/

theorem update_self (f : Nat → Nat) (k v : Nat) : update f k v k = v := by
  simp [update]

theorem update_ne (f : Nat → Nat) (k v j : Nat) (h : j ≠ k) : update f k v j = f j := by
  simp [update, h]

/-- The effective target row of draw_byte: the row itself when in range, the
wrapped row when vertical wrapping is enabled, nothing when the byte is
dropped off the bottom edge. -/
def effRow (wy : Bool) (row : Nat) : Option Nat :=
  if row < 32 then some row else if wy then some (row % 32) else none

theorem drawByteB_eq (wy : Bool) (buf : Nat → Nat) (row byte : Nat) :
    drawByteB wy buf row byte =
      match effRow wy row with
      | some t => update buf t (buf t ^^^ byte)
      | none => buf := by
  unfold drawByteB effRow
  by_cases h1 : row < 32
  · simp [h1]
  · by_cases h2 : wy <;> simp [h1, h2]

theorem drawByteBC_eq (wy : Bool) (buf : Nat → Nat) (row byte : Nat) :
    drawByteBC wy buf row byte =
      match effRow wy row with
      | some t => (update buf t (buf t ^^^ byte), byte &&& (buf t ^^^ byte) != byte)
      | none => (buf, false) := by
  unfold drawByteBC effRow
  by_cases h1 : row < 32
  · simp [h1, update_self]
  · by_cases h2 : wy <;> simp [h1, h2, update_self]

/-- The accumulated XOR contribution of a word list to row j when drawn
starting at the given row. -/
def rowMask (wy : Bool) : List Nat → Nat → Nat → Nat
  | [], _, _ => 0
  | w :: ws, row, j =>
    (match effRow wy row with
     | some t => if t = j then w else 0
     | none => 0) ^^^ rowMask wy ws (row + 1) j

theorem drawLoopB_apply (wy : Bool) :
    ∀ (ws : List Nat) (row : Nat) (buf : Nat → Nat) (j : Nat),
      drawLoopB wy buf ws row j = buf j ^^^ rowMask wy ws row j := by
  intro ws
  induction ws with
  | nil => intro row buf j; simp [drawLoopB, rowMask]
  | cons w ws ih =>
    intro row buf j
    show drawLoopB wy (drawByteB wy buf row w) ws (row + 1) j = _
    rw [ih (row + 1) (drawByteB wy buf row w) j]
    have hb : (drawByteB wy buf row w) j =
        buf j ^^^ (match effRow wy row with
                   | some t => if t = j then w else 0
                   | none => 0) := by
      rw [drawByteB_eq]
      cases h : effRow wy row with
      | none => simp [Nat.xor_zero]
      | some t =>
        by_cases ht : t = j
        · subst ht; simp [update_self]
        · have hj : j ≠ t := fun hc => ht hc.symm
          simp [update_ne _ _ _ _ hj, ht, Nat.xor_zero]
    rw [hb, Nat.xor_assoc]
    rfl

theorem drawLoopB_restore (wy : Bool) (ws : List Nat) (row : Nat) (buf : Nat → Nat) :
    drawLoopB wy (drawLoopB wy buf ws row) ws row = buf := by
  funext j
  rw [drawLoopB_apply, drawLoopB_apply, Nat.xor_assoc, Nat.xor_self, Nat.xor_zero]

theorem drawLoopBC_fst (wy : Bool) :
    ∀ (ws : List Nat) (row : Nat) (buf : Nat → Nat),
      (drawLoopBC wy buf ws row).1 = drawLoopB wy buf ws row := by
  intro ws
  induction ws with
  | nil => intro row buf; rfl
  | cons w ws ih =>
    intro row buf
    show (drawLoopBC wy (drawByteBC wy buf row w).1 ws (row + 1)).1 = _
    rw [ih]
    have : (drawByteBC wy buf row w).1 = drawByteB wy buf row w := by
      rw [drawByteBC_eq, drawByteB_eq]
      cases effRow wy row <;> rfl
    rw [this]
    rfl

theorem effRow_mod (wy : Bool) (t j : Nat) (h : effRow wy t = some j) :
    t % 32 = j ∧ j < 32 := by
  unfold effRow at h
  by_cases h1 : t < 32
  · simp [h1] at h
    subst h
    omega
  · by_cases h2 : wy <;> simp [h1, h2] at h
    subst h
    constructor
    · rfl
    · exact Nat.mod_lt _ (by omega)

theorem effRow_unique (wy : Bool) (t1 t2 j : Nat) (hlt : t1 < t2) (hspan : t2 < t1 + 32)
    (h1 : effRow wy t1 = some j) (h2 : effRow wy t2 = some j) : False := by
  obtain ⟨m1, _⟩ := effRow_mod wy t1 j h1
  obtain ⟨m2, _⟩ := effRow_mod wy t2 j h2
  omega

theorem rowMask_eq_zero (wy : Bool) :
    ∀ (ws : List Nat) (row j : Nat),
      (∀ d, d < ws.length → ∀ t, effRow wy (row + d) = some t → t ≠ j) →
      rowMask wy ws row j = 0 := by
  intro ws
  induction ws with
  | nil => intro row j _; rfl
  | cons w ws ih =>
    intro row j h
    show (match effRow wy row with
          | some t => if t = j then w else 0
          | none => 0) ^^^ rowMask wy ws (row + 1) j = 0
    have hrest : rowMask wy ws (row + 1) j = 0 := by
      apply ih
      intro d hd t ht
      apply h (d + 1) (by simpa using Nat.succ_lt_succ hd) t
      have harith : row + 1 + d = row + (d + 1) := by omega
      rw [← harith]
      exact ht
    rw [hrest]
    cases hh : effRow wy row with
    | none => simp
    | some t =>
      have hne : t ≠ j := h 0 (by simp) t (by simpa using hh)
      simp [hne]

/-- With at most 32 sprite rows, each display row receives at most one
contribution: a non-zero row mask comes from exactly one sprite byte. -/
theorem rowMask_single (wy : Bool) :
    ∀ (ws : List Nat) (row j : Nat), ws.length ≤ 32 →
      rowMask wy ws row j ≠ 0 →
      ∃ d, d < ws.length ∧ effRow wy (row + d) = some j ∧
        ws.getD d 0 = rowMask wy ws row j ∧
        (∀ d2, d2 < ws.length → d2 ≠ d → ∀ t, effRow wy (row + d2) = some t → t ≠ j) := by
  intro ws
  induction ws with
  | nil => intro row j _ hm; exact absurd rfl hm
  | cons w ws ih =>
    intro row j hlen hm
    have hws31 : ws.length ≤ 31 := by simp at hlen; omega
    have hmask : rowMask wy (w :: ws) row j =
        (match effRow wy row with
         | some t => if t = j then w else 0
         | none => 0) ^^^ rowMask wy ws (row + 1) j := rfl
    by_cases hhit : effRow wy row = some j
    · -- the head byte hits row j; no later byte can hit it again
      have hnone : ∀ d, d < ws.length → ∀ u, effRow wy (row + 1 + d) = some u → u ≠ j := by
        intro d hd u hu heq
        subst heq
        exact effRow_unique wy row (row + 1 + d) u (by omega) (by omega) hhit hu
      have hrest : rowMask wy ws (row + 1) j = 0 := rowMask_eq_zero wy ws (row + 1) j hnone
      refine ⟨0, by simp, by simpa using hhit, ?_, ?_⟩
      · rw [hmask, hhit, hrest]
        simp
      · intro d2 hd2 hne u hu heq
        subst heq
        obtain ⟨d2', rfl⟩ : ∃ d2', d2 = d2' + 1 := ⟨d2 - 1, by omega⟩
        have hd2' : d2' < ws.length := by simp at hd2; omega
        apply hnone d2' hd2' u _ rfl
        have harith : row + 1 + d2' = row + (d2' + 1) := by omega
        rw [harith]
        exact hu
    · -- the head byte does not hit row j
      have hhead : (match effRow wy row with
          | some t => if t = j then w else 0
          | none => 0) = 0 := by
        cases hh : effRow wy row with
        | none => rfl
        | some t =>
          have : t ≠ j := fun hc => hhit (by rw [hh, hc])
          simp [this]
      have hdrop : rowMask wy (w :: ws) row j = rowMask wy ws (row + 1) j := by
        rw [hmask, hhead]
        simp
      have hm' : rowMask wy ws (row + 1) j ≠ 0 := by
        intro hc
        exact hm (by rw [hdrop, hc])
      obtain ⟨d, hd, hht, hgd, huni⟩ := ih (row + 1) j (by omega) hm'
      refine ⟨d + 1, by simpa using Nat.succ_lt_succ hd, ?_, ?_, ?_⟩
      · have harith : row + (d + 1) = row + 1 + d := by omega
        rw [harith]
        exact hht
      · rw [hdrop, ← hgd]
        rfl
      · intro d2 hd2 hne t ht heq
        subst heq
        cases d2 with
        | zero => exact hhit (by simpa using ht)
        | succ d2' =>
          have hd2' : d2' < ws.length := by simp at hd2; omega
          apply huni d2' hd2' (by omega) t _ rfl
          have harith : row + 1 + d2' = row + (d2' + 1) := by omega
          rw [harith]
          exact ht

theorem ne_zero_of_testBit (n k : Nat) (h : n.testBit k = true) : n ≠ 0 := by
  intro hc
  rw [hc] at h
  simp [Nat.zero_testBit] at h

/-- The collision check of draw_byte after the XOR, byte AND new-row differs
from byte, holds exactly when the byte overlaps the previous row value. -/
theorem collision_check (byte x : Nat) (h : byte &&& x ≠ 0) :
    (byte &&& (x ^^^ byte) != byte) = true := by
  rw [bne_iff_ne]
  intro hc
  apply h
  apply Nat.eq_of_testBit_eq
  intro k
  have hk := congrArg (fun n => n.testBit k) hc
  simp only [Nat.testBit_and, Nat.testBit_xor] at hk
  simp only [Nat.testBit_and, Nat.zero_testBit]
  cases hb : byte.testBit k <;> cases hx : x.testBit k <;>
    simp [hb, hx] at hk ⊢

/-- If the d-th sprite byte lands on row j, overlaps the current content of
row j, and no earlier byte touches row j, then the drawing loop reports a
change. -/
theorem drawLoopBC_snd_true (wy : Bool) :
    ∀ (ws : List Nat) (row : Nat) (buf : Nat → Nat) (d j : Nat),
      d < ws.length → effRow wy (row + d) = some j →
      ws.getD d 0 &&& buf j ≠ 0 →
      (∀ d2, d2 < d → ∀ t, effRow wy (row + d2) = some t → t ≠ j) →
      (drawLoopBC wy buf ws row).2 = true := by
  intro ws
  induction ws with
  | nil => intro row buf d j hd; simp at hd
  | cons w ws ih =>
    intro row buf d j hd hht hov huni
    show ((drawByteBC wy buf row w).2 || (drawLoopBC wy (drawByteBC wy buf row w).1 ws (row + 1)).2) = true
    cases d with
    | zero =>
      have hhit : effRow wy row = some j := by simpa using hht
      have hfst : (drawByteBC wy buf row w).2 = true := by
        rw [drawByteBC_eq, hhit]
        exact collision_check w (buf j) (by simpa using hov)
      rw [hfst]
      rfl
    | succ d' =>
      have hbufj : (drawByteBC wy buf row w).1 j = buf j := by
        rw [drawByteBC_eq]
        cases hh : effRow wy row with
        | none => rfl
        | some t =>
          have hne : t ≠ j := huni 0 (by omega) t (by simpa using hh)
          exact update_ne _ _ _ _ (fun hc => hne hc.symm)
      have hrec : (drawLoopBC wy (drawByteBC wy buf row w).1 ws (row + 1)).2 = true := by
        apply ih (row + 1) _ d' j (by simpa using Nat.lt_of_succ_lt_succ hd)
        · have harith : row + 1 + d' = row + (d' + 1) := by omega
          rw [harith]
          exact hht
        · rw [hbufj]
          simpa using hov
        · intro d2 hd2 t ht
          apply huni (d2 + 1) (by omega) t
          have harith : row + (d2 + 1) = row + 1 + d2 := by omega
          rw [harith]
          exact ht
      rw [hrec]
      simp

/-- A draw set at least one pixel: some display cell that was dark before is
lit afterwards (row r, column c, bit 63 - c of the packed row). -/
def setsAPixel (old upd : Nat → Nat) : Prop :=
  ∃ r, r < 32 ∧ ∃ c, c < 64 ∧
    (old r).testBit (63 - c) = false ∧ (upd r).testBit (63 - c) = true

theorem drawLoop_restore_and_collide (wy : Bool) (ws : List Nat) (row : Nat) (b : Nat → Nat)
    (hlen : ws.length ≤ 32) :
    drawLoopB wy (drawLoopB wy b ws row) ws row = b ∧
    (setsAPixel b (drawLoopB wy b ws row) →
      (drawLoopBC wy (drawLoopB wy b ws row) ws row).2 = true) := by
  refine ⟨drawLoopB_restore wy ws row b, ?_⟩
  rintro ⟨r, hr, c, hc, hold, hnew⟩
  have hb1 : drawLoopB wy b ws row r = b r ^^^ rowMask wy ws row r :=
    drawLoopB_apply wy ws row b r
  have hmbit : (rowMask wy ws row r).testBit (63 - c) = true := by
    have h1 := hnew
    rw [hb1, Nat.testBit_xor, hold] at h1
    simpa using h1
  have hm0 : rowMask wy ws row r ≠ 0 := ne_zero_of_testBit _ _ hmbit
  obtain ⟨d, hd, hht, hgd, huni⟩ := rowMask_single wy ws row r hlen hm0
  apply drawLoopBC_snd_true wy ws row _ d r hd hht
  · refine ne_zero_of_testBit _ (63 - c) ?_
    rw [Nat.testBit_and, hgd, hmbit, hnew]
    rfl
  · intro d2 hd2 t ht
    exact huni d2 (by omega) (by omega) t ht

/-! ## Claim theorems -/

/-- C7: a point-level get_pixel or set_pixel on the display surface fails
with a fatal, observable event exactly when (row, col) lies outside
[0,31] x [0,63]; in-bounds point accesses never fail, and out-of-bounds
ones terminate instead of being silently clipped or aliased onto another
pixel. -/
theorem pixel_access_fails_iff_out_of_bounds (s : Screen) (row col : Nat) :
    ((∃ e, s.get_pixel row col = .error e) ↔ ¬(row ≤ 31 ∧ col ≤ 63)) ∧
    (∀ status, (∃ e, s.set_pixel row col status = .error e) ↔ ¬(row ≤ 31 ∧ col ≤ 63)) := by
  constructor
  · unfold Screen.get_pixel Screen.check_bounds
    by_cases h1 : 32 ≤ row ∨ 64 < col
    · simp only [if_pos h1]
      constructor
      · intro _; omega
      · intro _; exact ⟨.boundsViolation, rfl⟩
    · simp only [if_neg h1]
      by_cases h2 : col ≤ 63
      · simp only [if_pos h2]
        constructor
        · rintro ⟨e, he⟩
          exact Except.noConfusion he
        · intro hc
          exact absurd ⟨by omega, h2⟩ hc
      · simp only [if_neg h2]
        constructor
        · intro _; omega
        · intro _; exact ⟨.arithUnderflow, rfl⟩
  · intro status
    unfold Screen.set_pixel
    by_cases h2 : col ≤ 63
    · simp only [if_pos h2]
      by_cases h1 : row < 32
      · simp only [if_pos h1]
        constructor
        · rintro ⟨e, he⟩
          cases status <;> exact Except.noConfusion he
        · intro hc
          exact absurd ⟨by omega, h2⟩ hc
      · simp only [if_neg h1]
        constructor
        · intro _; omega
        · intro _; exact ⟨.rowIndexOutOfRange, rfl⟩
    · simp only [if_neg h2]
      constructor
      · intro _; omega
      · intro _; exact ⟨.arithUnderflow, rfl⟩

/-- C8: an all-bits-set sprite byte drawn at column 60 of an in-range row
with horizontal wrapping lights columns 60..63 and wraps to columns 0..3 of
the same row; with wrapping off only columns 60..63 are lit and the bits
past column 63 are discarded. -/
theorem full_byte_at_column_60 (r c : Nat) (hr : r < 32) (hc : c < 64) :
    ((Screen.new true true).draw_sprite [0xFF] r 60).get_pixel r c
      = .ok (decide (60 ≤ c ∨ c ≤ 3)) ∧
    ((Screen.new false true).draw_sprite [0xFF] r 60).get_pixel r c
      = .ok (decide (60 ≤ c)) := by
  have h1 : ¬(32 ≤ r ∨ 64 < c) := by omega
  have h2 : c ≤ 63 := by omega
  have hmask : ∀ (w : Nat), rowMask true [w] r r = w := by
    intro w
    show (match effRow true r with
          | some t => if t = r then w else 0
          | none => 0) ^^^ rowMask true [] (r + 1) r = w
    unfold effRow
    rw [if_pos hr]
    simp [rowMask]
  constructor
  · have hbuf : ((Screen.new true true).draw_sprite [0xFF] r 60).pixel_buffer r
        = 0xF00000000000000F := by
      have hw : (Screen.new true true).shift_byte 0xFF (63 - ((60 : Nat) : Int) - 7)
          = 0xF00000000000000F := by decide
      simp only [Screen.draw_sprite, List.map_cons, List.map_nil]
      rw [drawLoopB_apply]
      have hproj : (Screen.new true true).wrap_y = true := rfl
      have hpb : (Screen.new true true).pixel_buffer r = 0 := rfl
      rw [hproj, hpb, hw, hmask]
      simp
    simp only [Screen.get_pixel, Screen.check_bounds, if_neg h1, if_pos h2]
    rw [hbuf]
    refine congrArg Except.ok ?_
    have hball : ∀ cc, cc < 64 →
        ((((0xF00000000000000F : Nat) >>> (63 - cc)) &&& 1) == 1)
          = decide (60 ≤ cc ∨ cc ≤ 3) := by decide
    exact hball c hc
  · have hbuf : ((Screen.new false true).draw_sprite [0xFF] r 60).pixel_buffer r
        = 0xF := by
      have hw : (Screen.new false true).shift_byte 0xFF (63 - ((60 : Nat) : Int) - 7)
          = 0xF := by decide
      simp only [Screen.draw_sprite, List.map_cons, List.map_nil]
      rw [drawLoopB_apply]
      have hproj : (Screen.new false true).wrap_y = true := rfl
      have hpb : (Screen.new false true).pixel_buffer r = 0 := rfl
      rw [hproj, hpb, hw, hmask]
      simp
    simp only [Screen.get_pixel, Screen.check_bounds, if_neg h1, if_pos h2]
    rw [hbuf]
    refine congrArg Except.ok ?_
    have hball : ∀ cc, cc < 64 →
        ((((0xF : Nat) >>> (63 - cc)) &&& 1) == 1) = decide (60 ≤ cc) := by decide
    exact hball c hc

/-- The shift of a sprite byte depends only on the horizontal wrap flag. -/
def shiftW (wx : Bool) (byte : Nat) (sh : Int) : Nat :=
  if 0 ≤ sh then (byte <<< sh.toNat) % 2 ^ 64
  else if wx then rotRight64 byte sh.natAbs
  else byte >>> (sh.natAbs % 64)

theorem screen_shift_byte_eq (s : Screen) (byte : Nat) (sh : Int) :
    s.shift_byte byte sh = shiftW s.wrap_x byte sh := rfl

theorem frame_buffer_shift_byte_eq (s : FrameBuffer) (byte : Nat) (sh : Int) :
    s.shift_byte byte sh = shiftW s.wrap_x byte sh := rfl

/-- C9: drawing the same sprite twice at the same on-screen position
restores the whole pixel buffer (XOR idempotence), both for the Screen and
for the FrameBuffer drawing routine, and whenever the first FrameBuffer
draw set at least one pixel the second draw reports collision = true. -/
theorem draw_twice_restores (wx wy : Bool) (sprite : List Nat) (row col : Nat)
    (b pb : Nat → Nat) (hcol : col ≤ 63) (hlen : sprite.length ≤ 32) :
    (((Screen.mk b wx wy).draw_sprite sprite row col).draw_sprite sprite row col).pixel_buffer
      = b ∧
    ((((FrameBuffer.mk b pb wx wy).draw_sprite sprite row col).1.draw_sprite
        sprite row col).1.buffer = b ∧
      (setsAPixel b ((FrameBuffer.mk b pb wx wy).draw_sprite sprite row col).1.buffer →
        (((FrameBuffer.mk b pb wx wy).draw_sprite sprite row col).1.draw_sprite
          sprite row col).2 = true)) := by
  obtain ⟨hres, hcollide⟩ :=
    drawLoop_restore_and_collide wy
      (sprite.map (fun byte => shiftW wx byte (63 - (col : Int) - 7))) row b
      (by rw [List.length_map]; exact hlen)
  refine ⟨?_, ?_, ?_⟩
  · simpa only [Screen.draw_sprite, screen_shift_byte_eq] using hres
  · simpa only [FrameBuffer.draw_sprite, frame_buffer_shift_byte_eq, drawLoopBC_fst]
      using hres
  · intro hset
    have hset2 : setsAPixel b
        (drawLoopB wy b (sprite.map (fun byte => shiftW wx byte (63 - (col : Int) - 7))) row) := by
      simpa only [FrameBuffer.draw_sprite, frame_buffer_shift_byte_eq, drawLoopBC_fst]
        using hset
    have := hcollide hset2
    simpa only [FrameBuffer.draw_sprite, frame_buffer_shift_byte_eq, drawLoopBC_fst]
      using this

/-- C5 (amended): for destination register x different from 0xF, SUB and
SUBN write VF = 1 exactly when the minuend is strictly greater than the
other operand, and VF = 0 otherwise, equal operands included; when x = 0xF
the computed flag is immediately overwritten by the subtraction result. -/
theorem sub_family_flag (c : CPU) (x y : Nat) (hx : x ≠ 15) :
    ((opcode_8xy5 c x y).1.v 15 = if c.v y < c.v x then 1 else 0) ∧
    ((opcode_8xy7 c x y).1.v 15 = if c.v x < c.v y then 1 else 0) := by
  constructor
  · show update (update c.v 15 (if c.v x > c.v y then 1 else 0)) x _ 15 = _
    rw [update_ne _ _ _ _ (Ne.symm hx)]
    exact update_self c.v 15 _
  · show update (update c.v 15 (if c.v y > c.v x then 1 else 0)) x _ 15 = _
    rw [update_ne _ _ _ _ (Ne.symm hx)]
    exact update_self c.v 15 _

theorem fx55_loop_ok :
    ∀ (l : List Nat) (mem v : Nat → Nat) (base : Nat),
      (∀ j ∈ l, base + j < 4096) → ∃ m, fx55_loop mem v base l = .ok m := by
  intro l
  induction l with
  | nil => intro mem v base _; exact ⟨mem, rfl⟩
  | cons a l ih =>
    intro mem v base h
    have ha : base + a < 4096 := h a (by simp)
    obtain ⟨m, hm⟩ := ih (update mem (base + a) (v a)) v base (fun j hj => h j (by simp [hj]))
    refine ⟨m, ?_⟩
    simp only [fx55_loop, if_pos ha]
    exact hm

theorem fx65_loop_ok :
    ∀ (l : List Nat) (v mem : Nat → Nat) (base : Nat),
      (∀ j ∈ l, base + j < 4096) →
      ∃ nv, fx65_loop v mem base l = .ok nv ∧ ∀ j, j ∉ l → nv j = v j := by
  intro l
  induction l with
  | nil => intro v mem base _; exact ⟨v, rfl, fun j _ => rfl⟩
  | cons a l ih =>
    intro v mem base h
    have ha : base + a < 4096 := h a (by simp)
    obtain ⟨nv, hnv, hun⟩ :=
      ih (update v a (mem (base + a))) mem base (fun j hj => h j (by simp [hj]))
    refine ⟨nv, ?_, ?_⟩
    · simp only [fx65_loop, if_pos ha]
      exact hnv
    · intro j hj
      have hja : j ≠ a := by
        intro hc
        exact hj (by simp [hc])
      have hjl : j ∉ l := fun hc => hj (by simp [hc])
      rw [hun j hjl, update_ne _ _ _ _ hja]

/-- C10: with x a register index and I + x inside memory, FX55 and FX65
both succeed and leave the index register I unchanged (no auto-increment),
and FX65 leaves every register above x unchanged. -/
theorem regs_transfer_preserves_index (c : CPU) (x : Nat) (hx : x ≤ 15)
    (hI : c.i + x ≤ 4095) :
    (∃ c1, opcode_fx55 c x = .ok (c1, .next) ∧ c1.i = c.i) ∧
    (∃ c2, opcode_fx65 c x = .ok (c2, .next) ∧ c2.i = c.i ∧
      ∀ j, x < j → c2.v j = c.v j) := by
  have hb : ∀ j ∈ List.range (x + 1), c.i + j < 4096 := by
    intro j hj
    rw [List.mem_range] at hj
    omega
  constructor
  · obtain ⟨m, hm⟩ := fx55_loop_ok (List.range (x + 1)) c.memory c.v c.i hb
    refine ⟨{ c with memory := m }, ?_, rfl⟩
    simp only [opcode_fx55, hm, Except.map]
  · obtain ⟨nv, hnv, hun⟩ := fx65_loop_ok (List.range (x + 1)) c.v c.memory c.i hb
    refine ⟨{ c with v := nv }, ?_, rfl, ?_⟩
    · simp only [opcode_fx65, hnv, Except.map]
    · intro j hj
      exact hun j (by rw [List.mem_range]; omega)

/-! ## Concrete executions exhibiting the divergences -/

def dxynState : CPU :=
  { CPU.zeroed with
      v := fun j => if j = 0 then 5 else if j = 1 then 7 else if j = 15 then 1 else 0
      i := 0x300
      memory := fun a => if a = 0x300 then 0xF0 else 0 }

/-- C1: executing DXYN (instruction 0xD011, x = 0, y = 1, n = 1) on an empty
screen with VF = 1: no pixel can go dark, so the claim demands VF = 0, yet
VF remains 1 after the draw (the handler discards the collision information
and never writes VF); moreover the sprite lands at row 1 = y and column
0 = x, the register indices, not at row V1 = 7, column V0 = 5. -/
theorem dxyn_leaves_vf_and_uses_indices :
    (executeInstruction dxynState 0xD011 0).map
        (fun c => (c.v 15, c.screen.pixel_buffer 1, c.screen.pixel_buffer 7, c.pc))
      = .ok (1, 0xF000000000000000, 0, 0x202) := by decide

def bcdState : CPU :=
  { CPU.zeroed with
      v := fun j => if j = 3 then 123 else if j = 0 then 200 else 0
      i := 0x300
      memory := fun a => if a = 0x301 then 55 else if a = 0x302 then 66 else 0 }

/-- C2: executing FX33 with x = 3, V3 = 123, V0 = 200, I = 0x300: the claim
demands memory 0x300..0x302 = (1, 2, 3), the BCD digits of V3; the code
instead decomposes V0 (it indexes v with x >> 8 = 0) and writes all three
digits into the single cell memory[0x300], the last write winning, leaving
0x301 and 0x302 untouched. -/
theorem fx33_writes_single_cell :
    (executeInstruction bcdState 0xF333 0).map
        (fun c => (c.memory 0x300, c.memory 0x301, c.memory 0x302, c.pc))
      = .ok (0, 55, 66, 0x202) := by decide

def callRetState : CPU :=
  { CPU.zeroed with
      memory := fun a =>
        if a = 0x200 then 0x21 else if a = 0x201 then 0x02
        else if a = 0x302 then 0x00 else if a = 0x303 then 0xEE else 0 }

/-- C3: CALL 0x102 executed at pc = 0x200 pushes 0x200, the call
instruction's own address (the pc has not been advanced yet), and RET jumps
straight back to it: after the call/return round trip pc = 0x200, not the
0x202 the claim demands; the stack pointer is restored to 0. -/
theorem call_ret_returns_to_call_address :
    ((cycle callRetState 0).bind (fun c => cycle c 0)).map (fun c => (c.pc, c.sp))
      = .ok (0x200, 0) := by decide

def keyNoneState : CPU :=
  { CPU.zeroed with v := fun j => if j = 0 then 0xAA else 0 }

def keyFState : CPU :=
  { CPU.zeroed with v := fun j => if j = 0 then 0xAA else 0, keypad := ⟨1 <<< 15⟩ }

def keyEState : CPU :=
  { CPU.zeroed with v := fun j => if j = 0 then 0xAA else 0, keypad := ⟨1 <<< 14⟩ }

/-- C4: FX0A with no key pressed spins in place (pc and V0 unchanged), and
with key 0xE pressed stores 14 and advances, as the claim says; but with
exactly key 0xF pressed it also spins and never stores the key, because the
scan loop visits keys 0..14 only, contradicting the claim at k = 0xF. -/
theorem fx0a_misses_key_f :
    (executeInstruction keyNoneState 0xF00A 0).map (fun c => (c.pc, c.v 0))
      = .ok (0x200, 0xAA) ∧
    (executeInstruction keyEState 0xF00A 0).map (fun c => (c.pc, c.v 0))
      = .ok (0x202, 14) ∧
    (executeInstruction keyFState 0xF00A 0).map (fun c => (c.pc, c.v 0))
      = .ok (0x200, 0xAA) := by
  refine ⟨by decide, by decide, by decide⟩

def fontState16 : CPU := { CPU.zeroed with v := fun j => if j = 0 then 16 else 0 }

def fontState17 : CPU := { CPU.zeroed with v := fun j => if j = 0 then 17 else 0 }

/-- C6: FX29 with V0 = 16, one above the last valid hexadecimal digit: the
claim (and the spec) demand a fatal invalid-character error for every value
above 15, but the source guard only fires for values above 16, so the
instruction succeeds, sets I = 80 (one past the 80-byte font table) and
advances; with V0 = 17 the error does fire. -/
theorem fx29_accepts_sixteen :
    (executeInstruction fontState16 0xF029 0).map (fun c => (c.i, c.pc))
      = .ok (80, 0x202) ∧
    (executeInstruction fontState17 0xF029 0).map (fun c => (c.i, c.pc))
      = .error (.invalidCharacter 0) := by
  refine ⟨by decide, by decide⟩

/-! ## Counterexample and witnesses -/

def subEqState : CPU :=
  { CPU.zeroed with v := fun j => if j = 1 then 7 else if j = 2 then 7 else 0 }

def subFState : CPU :=
  { CPU.zeroed with v := fun j => if j = 15 then 5 else if j = 0 then 3 else 0 }

/-- C5 counterexample: with V1 = V2 = 7 the minuend is greater than or
equal to the second operand, so the claim demands VF = 1 after SUB V1,V2
and after SUBN V1,V2, but the code leaves VF = 0 in both cases; and with
destination x = 0xF (VF = 5, V0 = 3, minuend 5 ≥ 3, claim demands VF = 1)
SUB VF,V0 leaves VF = 254, the computed flag 1 being overwritten by the
wrapping difference 1 - 3. -/
theorem sub_family_flag_counterexample :
    (subEqState.v 1 ≥ subEqState.v 2 ∧
      (opcode_8xy5 subEqState 1 2).1.v 15 = 0 ∧
      (opcode_8xy7 subEqState 1 2).1.v 15 = 0) ∧
    (subFState.v 15 ≥ subFState.v 0 ∧
      (opcode_8xy5 subFState 15 0).1.v 15 = 254) := by
  refine ⟨⟨by decide, by decide, by decide⟩, by decide, by decide⟩

/-- Witness for the amended C5 theorem at x = 1, y = 2 on the zeroed CPU. -/
theorem sub_family_flag_witness :
    (1 : Nat) ≠ 15 ∧
    (((opcode_8xy5 CPU.zeroed 1 2).1.v 15
        = if CPU.zeroed.v 2 < CPU.zeroed.v 1 then 1 else 0) ∧
     ((opcode_8xy7 CPU.zeroed 1 2).1.v 15
        = if CPU.zeroed.v 1 < CPU.zeroed.v 2 then 1 else 0)) :=
  ⟨by decide, sub_family_flag CPU.zeroed 1 2 (by decide)⟩

/-- Witness for C8 at row 5, column 0. -/
theorem full_byte_at_column_60_witness :
    (5 : Nat) < 32 ∧ (0 : Nat) < 64 ∧
    (((Screen.new true true).draw_sprite [0xFF] 5 60).get_pixel 5 0
        = .ok (decide (60 ≤ (0 : Nat) ∨ (0 : Nat) ≤ 3)) ∧
     ((Screen.new false true).draw_sprite [0xFF] 5 60).get_pixel 5 0
        = .ok (decide (60 ≤ (0 : Nat)))) :=
  ⟨by decide, by decide, full_byte_at_column_60 5 0 (by decide) (by decide)⟩

/-- Witness for C9 with the one-byte sprite 0xF0 drawn at the origin of an
empty buffer with both wrap flags set. -/
theorem draw_twice_restores_witness :
    (0 : Nat) ≤ 63 ∧ ([0xF0] : List Nat).length ≤ 32 ∧
    ((((Screen.mk (fun _ => 0) true true).draw_sprite [0xF0] 0 0).draw_sprite
        [0xF0] 0 0).pixel_buffer = (fun _ => 0) ∧
     ((((FrameBuffer.mk (fun _ => 0) (fun _ => 0) true true).draw_sprite [0xF0] 0 0).1.draw_sprite
         [0xF0] 0 0).1.buffer = (fun _ => 0) ∧
      (setsAPixel (fun _ => 0)
          ((FrameBuffer.mk (fun _ => 0) (fun _ => 0) true true).draw_sprite [0xF0] 0 0).1.buffer →
        (((FrameBuffer.mk (fun _ => 0) (fun _ => 0) true true).draw_sprite [0xF0] 0 0).1.draw_sprite
          [0xF0] 0 0).2 = true))) :=
  ⟨by decide, by decide,
    draw_twice_restores true true [0xF0] 0 0 (fun _ => 0) (fun _ => 0) (by decide) (by decide)⟩

/-- Witness for C10 at x = 15 on the zeroed CPU (I = 0). -/
theorem regs_transfer_preserves_index_witness :
    (15 : Nat) ≤ 15 ∧ CPU.zeroed.i + 15 ≤ 4095 ∧
    ((∃ c1, opcode_fx55 CPU.zeroed 15 = .ok (c1, .next) ∧ c1.i = CPU.zeroed.i) ∧
     (∃ c2, opcode_fx65 CPU.zeroed 15 = .ok (c2, .next) ∧ c2.i = CPU.zeroed.i ∧
       ∀ j, 15 < j → c2.v j = CPU.zeroed.v j)) :=
  ⟨by decide, by decide,
    regs_transfer_preserves_index CPU.zeroed 15 (by decide) (by decide)⟩
